import Mathlib

/-
Verification development for the clair layer/key-value datastore (pgsql
backend).  The Go source is shallowly embedded: the database is explicit
state (lists of rows), SQL statements become pure functions on that state,
fallible operations return errors explicitly, and the recursive layer-tree
query is driven by a fuel parameter (a `none` result means the query did
not complete within the given fuel; a result that is `none` for every fuel
is a non-terminating query).
-/

set_option maxRecDepth 4096

namespace Clair

/-- Error taxonomy of the datastore: `cerrors.ErrNotFound`,
`database.ErrInconsistent`, a postgres unique-constraint violation, and
`cerrors.NewBadRequestError(msg)`. -/
inductive DBError where
  | notFound
  | inconsistent
  | uniqueViolation
  | badRequest (msg : String)
  deriving DecidableEq, Repr

/-- database.Namespace (fields ID, Name). -/
structure Namespace where
  ID : Nat := 0
  Name : String := ""
  deriving DecidableEq, Repr

/-- database.FeatureVersion.  Only the identity column drives the diff
closure and the claims; the display columns scanned on the non-idOnly path
(version string, feature name, feature namespace) are not modeled. -/
structure FeatureVersion where
  ID : Nat := 0
  deriving DecidableEq, Repr

/-- Reference to a parent layer.  The Go field is `Parent *database.Layer`;
the embedded code only ever reads or writes the `ID` and `Name` fields of
that pointed-to layer (FindLayer fills only `Name`, InsertLayer reads only
`ID`), which is what this reference captures. -/
structure LayerRef where
  ID : Nat := 0
  Name : String := ""
  deriving DecidableEq, Repr

/-- database.Layer as passed in and out of the store API. -/
structure Layer where
  ID : Nat := 0
  Name : String := ""
  EngineVersion : Int := 0
  Parent : Option LayerRef := none
  Namespace : Option Clair.Namespace := none
  Features : List FeatureVersion := []
  deriving DecidableEq, Repr

/-- A row of the Layer table (columns id, name, engineversion, parent_id,
namespace_id; the nullable columns are `Option`). -/
structure LayerRow where
  id : Nat
  name : String
  engineVersion : Int
  parentId : Option Nat
  namespaceId : Option Nat
  deriving DecidableEq, Repr

/-- A row of the Layer_diff_FeatureVersion table
(layer_id, featureversion_id, modification). -/
structure DiffRow where
  layerId : Nat
  featureVersionId : Nat
  modification : String
  deriving DecidableEq, Repr

/-- The visible state of a `pgSQL` handle: the durable tables, the id
sequence, the optional in-memory cache of `insertNamespace`, and a counter
of durable-store round trips (each executed query/exec bumps it; it lets
theorems state that an operation touched no durable storage). -/
structure DB where
  layers : List LayerRow := []
  diffs : List DiffRow := []
  namespaces : List (Nat × String) := []
  keyvalues : List (String × String) := []
  nextId : Nat := 1
  cache : Option (List (String × Nat)) := none
  queries : Nat := 0
  deriving DecidableEq, Repr

/-- The empty datastore. -/
def emptyDB : DB := {}

/-- Association-list lookup, the embedding of both a Go map read and the
cache `Get`. -/
def alLookup {α β : Type} [DecidableEq α] (m : List (α × β)) (k : α) : Option β :=
  match m.find? (fun p => p.1 = k) with
  | some p => some p.2
  | none => none

/-- Association-list insert with Go map semantics: writing to an existing
key replaces its value, otherwise the binding is added.  Also embeds the
cache `Add`. -/
def alInsert {α β : Type} [DecidableEq α] (m : List (α × β)) (k : α) (v : β) :
    List (α × β) :=
  if m.any (fun p => p.1 = k) then
    m.map (fun p => if p.1 = k then (k, v) else p)
  else
    m ++ [(k, v)]

/-- Association-list delete with Go `delete(m, k)` semantics. -/
def alDelete {α β : Type} [DecidableEq α] (m : List (α × β)) (k : α) :
    List (α × β) :=
  m.filter (fun p => ¬ p.1 = k)

theorem alLookup_alInsert {α β : Type} [DecidableEq α]
    (m : List (α × β)) (k : α) (v : β) :
    alLookup (alInsert m k v) k = some v := by
  by_cases h : m.any (fun p => p.1 = k)
  · simp only [alInsert, if_pos h]
    induction m with
    | nil => simp at h
    | cons p rest ih =>
      by_cases hp : p.1 = k
      · simp [alLookup, List.find?, hp]
      · simp only [List.any_cons, Bool.or_eq_true, decide_eq_true_eq] at h
        rcases h with h | h
        · exact absurd h hp
        · simp only [List.map_cons, if_neg hp]
          have := ih h
          simpa [alLookup, List.find?, hp] using this
  · simp only [alInsert, if_neg h]
    induction m with
    | nil => simp [alLookup, List.find?]
    | cons p rest ih =>
      simp only [List.any_cons, Bool.or_eq_true, decide_eq_true_eq, not_or] at h
      have hp : ¬ p.1 = k := h.1
      simp only [List.cons_append]
      have := ih (by simpa using h.2)
      simpa [alLookup, List.find?, hp] using this

/-- A row of the recursive CTE `layer_tree(id, parent_id, depth, path,
cycle)` of the layer feature-version query (the inline SQL of
getLayerFeatureVersions). -/
structure TreeRow where
  id : Nat
  parentId : Option Nat
  depth : Nat
  path : List Nat
  cycle : Bool
  deriving DecidableEq, Repr

/-- One tree row joined against the Layer table: the recursive term
`SELECT l.id, l.parent_id, lt.depth + 1, path || l.id, l.id = ANY(path)
FROM Layer l, layer_tree lt WHERE l.id = lt.parent_id` restricted to a
single `lt` row.  Note the source query has no `AND NOT cycle` guard: the
computed `cycle` column never stops the recursion. -/
def cteExpand (db : DB) (lt : TreeRow) : List TreeRow :=
  match lt.parentId with
  | none => []
  | some p =>
    (db.layers.filter (fun l => l.id = p)).map
      (fun l => ⟨l.id, l.parentId, lt.depth + 1, lt.path ++ [l.id], lt.path.contains l.id⟩)

/-- The recursive term applied to a whole generation of tree rows. -/
def cteStep (db : DB) (frontier : List TreeRow) : List TreeRow :=
  (frontier.map (fun lt => cteExpand db lt)).flatten

/-- Evaluation of the recursive CTE: each generation is the recursive term
applied to the previous one, and the query finishes when a generation is
empty.  `fuel` bounds the number of generations evaluated; `none` means
the query had not finished within that bound. -/
def layerTreeAux (db : DB) : Nat → List TreeRow → Option (List TreeRow)
  | 0, frontier => if frontier = [] then some [] else none
  | fuel + 1, frontier =>
    if frontier = [] then some []
    else
      match layerTreeAux db fuel (cteStep db frontier) with
      | none => none
      | some rest => some (frontier ++ rest)

/-- All rows of `layer_tree` for a target layer: the non-recursive term is
`SELECT l.id, l.parent_id, 1, ARRAY[l.id], false FROM Layer l WHERE l.id = $1`. -/
def layerTreeRows (db : DB) (layerID : Nat) (fuel : Nat) : Option (List TreeRow) :=
  layerTreeAux db fuel
    ((db.layers.filter (fun l => l.id = layerID)).map
      (fun l => ⟨l.id, l.parentId, 1, [l.id], false⟩))

/-- The scan loop of getLayerFeatureVersions: fold the ordered
(featureversion_id, modification) rows into the Go map
`mapFeatureVersions`.  `add` writes the feature-version under its identity,
`del` deletes it, and any other modification kind logs a warning and
returns `database.ErrInconsistent` at once (the rows scanned so far are
discarded). -/
def processDiffRows :
    List (Nat × String) → List (Nat × FeatureVersion) →
      Except DBError (List (Nat × FeatureVersion))
  | [], m => Except.ok m
  | (idv, modif) :: rest, m =>
    if modif = ("add") then processDiffRows rest (alInsert m idv { ID := idv })
    else if modif = ("del") then processDiffRows rest (alDelete m idv)
    else Except.error DBError.inconsistent

/-- getLayerFeatureVersions: run the recursive layer-tree query, order its
rows by depth descending (root first, target last; generations are built
in ascending depth, so this is the reverse), join each tree row against
its Layer_diff_FeatureVersion rows in that order, and fold them through
the transitive-closure map.  The result is the final map (the Go code then
copies its values into a slice in unspecified map order).  A `none` result
means the recursive query did not complete within `fuel` generations.
`idOnly` only selects fewer display columns in the source and is not
distinguished here. -/
def getLayerFeatureVersions (db : DB) (layerID : Nat) (fuel : Nat) :
    Option (Except DBError (List (Nat × FeatureVersion))) :=
  match layerTreeRows db layerID fuel with
  | none => none
  | some rows =>
    let ordered := rows.reverse
    let diffRows :=
      (ordered.map (fun tr =>
        (db.diffs.filter (fun d => d.layerId = tr.id)).map
          (fun d => (d.featureVersionId, d.modification)))).flatten
    some (processDiffRows diffRows [])

/-- The key set of the transitive-closure map. -/
def keysOf (m : List (Nat × FeatureVersion)) : Finset Nat :=
  (m.map Prod.fst).toFinset

/-- The cache key used by insertNamespace. -/
def cacheKey (name : String) : String := "namespace:" ++ name

/-- Modelled from the spec: the `soi_namespace` query (its SQL text is not
under src/) is the atomic select-or-insert of section 4.1 — select the
existing row by unique name, otherwise insert a fresh row and return its
generated identity.  One durable-store round trip either way. -/
def soiNamespace (db : DB) (name : String) : Nat × DB :=
  match db.namespaces.find? (fun p => p.2 = name) with
  | some p => (p.1, { db with queries := db.queries + 1 })
  | none =>
    (db.nextId,
      { db with
        namespaces := db.namespaces ++ [(db.nextId, name)],
        nextId := db.nextId + 1,
        queries := db.queries + 1 })

/-- Message of the insertNamespace validation error. -/
def nsMsg : String := "could not find/insert invalid Namespace"

/-- The shared miss path of insertNamespace: run `soi_namespace`, then add
the identity to the cache when a cache is configured. -/
def insertNamespaceMiss (db : DB) (ns : Namespace) : Except DBError Nat × DB :=
  match soiNamespace db ns.Name with
  | (idv, db1) =>
    match db1.cache with
    | some c =>
      (Except.ok idv, { db1 with cache := some (alInsert c (cacheKey ns.Name) idv) })
    | none => (Except.ok idv, db1)

/-- pgSQL.insertNamespace (database/pgsql/namespace.go): reject an empty
name; on a cache hit return the cached identity without touching durable
storage; otherwise select-or-insert and populate the cache. -/
def insertNamespace (db : DB) (ns : Namespace) : Except DBError Nat × DB :=
  if ns.Name = ("") then (Except.error (DBError.badRequest nsMsg), db)
  else
    match db.cache with
    | some c =>
      match alLookup c (cacheKey ns.Name) with
      | some idv => (Except.ok idv, db)
      | none => insertNamespaceMiss db ns
    | none => insertNamespaceMiss db ns

/-- pgSQL.FindLayer: select the layer row by name (ErrNotFound when
absent; the scanned-into struct stays zero-valued), attach parent and
namespace references carrying only the joined names, and when features are
requested run getLayerFeatureVersions (`idOnly := !withFeatures` selects
fewer columns only).  `loadAffectedBy` (withVulnerabilities) joins the
vulnerability tables, which are outside the modeled scope, and cannot fail
here.  `none` propagates a feature query that did not complete. -/
def FindLayer (db : DB) (name : String) (withFeatures withVulnerabilities : Bool)
    (fuel : Nat) : Option (Layer × Option DBError) :=
  match db.layers.find? (fun l => l.name = name) with
  | none => some ({}, some DBError.notFound)
  | some row =>
    let layer : Layer :=
      { ID := row.id, Name := row.name, EngineVersion := row.engineVersion,
        Parent := row.parentId.bind (fun pid =>
          (db.layers.find? (fun p => p.id = pid)).map
            (fun p => ({ Name := p.name } : LayerRef))),
        Namespace := row.namespaceId.bind (fun nid =>
          (db.namespaces.find? (fun p => p.1 = nid)).map
            (fun p => ({ Name := p.2 } : Namespace))) }
    if withFeatures || withVulnerabilities then
      match getLayerFeatureVersions db row.id fuel with
      | none => none
      | some (Except.error e) => some (layer, some e)
      | some (Except.ok m) => some ({ layer with Features := m.map Prod.snd }, none)
    else
      some (layer, none)

/-- The tables written by the InsertLayer transaction; `Begin` snapshots
them and `Commit` installs them (operations on the `pgSQL` handle itself,
such as insertNamespace, bypass the transaction). -/
structure Tx where
  layers : List LayerRow
  diffs : List DiffRow
  nextId : Nat
  deriving DecidableEq, Repr

/-- tx.Commit(): install the transaction's tables. -/
def commitTx (db : DB) (tx : Tx) : DB :=
  { db with layers := tx.layers, diffs := tx.diffs, nextId := tx.nextId }

/-- Modelled from the spec: the `i_layer` query (its SQL text is not under
src/) inserts a Layer row with the given name, engine version, parent and
namespace references, returning the generated id scanned into `layer.ID`;
the layer name is unique (spec section 6), so a duplicate name raises a
unique-constraint violation. -/
def iLayer (tx : Tx) (layer : Layer) (parentID namespaceID : Option Nat) :
    Except DBError (Nat × Tx) :=
  if tx.layers.any (fun l => l.name = layer.Name) then
    Except.error DBError.uniqueViolation
  else
    Except.ok (tx.nextId,
      { tx with
        layers := tx.layers ++
          [⟨tx.nextId, layer.Name, layer.EngineVersion, parentID, namespaceID⟩],
        nextId := tx.nextId + 1 })

/-- Modelled from the spec: the `u_layer` query (its SQL text is not under
src/) updates the engine version and namespace reference of the Layer row
with the given id; the source discards the rows-affected count, and a
matching row may not exist. -/
def uLayer (tx : Tx) (idv : Nat) (ev : Int) (namespaceID : Option Nat) : Tx :=
  { tx with
    layers := tx.layers.map (fun l =>
      if l.id = idv then { l with engineVersion := ev, namespaceId := namespaceID }
      else l) }

/-- updateDiffFeatureVersions (database/pgsql, layer file): the source
body is an empty TODO skeleton — its three cases (updating an existing
layer, no parent, diff against the parent) are comments with no code — so
no Layer_diff_FeatureVersion row is ever written. -/
def updateDiffFeatureVersions (tx : Tx) (layer existingLayer : Layer) : Tx :=
  tx

/-- Message of the empty-name validation error of InsertLayer. -/
def layerNameMsg : String := "could not insert a layer which has an empty Name"

/-- Message of the unresolved-parent validation error of InsertLayer. -/
def parentMsg : String :=
  "Parent is expected to be retrieved from database when inserting a layer."

/-- pgSQL.InsertLayer, step for step: validate the name; FindLayer (with
features) to learn whether the name exists, `isExisting := err == nil`;
begin a transaction; resolve the namespace through insertNamespace — on
the pgSQL handle, outside the transaction; then the source's
`if isExisting` branch runs the "Insert a new layer" code (parent check
and `i_layer`), while its `else` branch runs the engine-version no-op
guard (`return nil` with the transaction neither committed nor rolled
back) and otherwise the "Update an existing layer" code (`u_layer`);
finally updateDiffFeatureVersions and Commit.  `none` propagates a
FindLayer feature query that did not complete. -/
def insertLayer (db : DB) (layer : Layer) (fuel : Nat) :
    Option (Option DBError × DB) :=
  if layer.Name = ("") then
    some (some (DBError.badRequest layerNameMsg), db)
  else
    match FindLayer db layer.Name true false fuel with
    | none => none
    | some (existingLayer, ferr) =>
      if ferr ≠ none ∧ ferr ≠ some DBError.notFound then some (ferr, db)
      else
        let isExisting : Bool := ferr.isNone
        let tx : Tx := { layers := db.layers, diffs := db.diffs, nextId := db.nextId }
        let nsStep : Except DBError (Option Nat) × DB :=
          match layer.Namespace with
          | none => (Except.ok none, db)
          | some ns =>
            match insertNamespace db ns with
            | (Except.error e, db1) => (Except.error e, db1)
            | (Except.ok n, db1) => (Except.ok (some n), db1)
        match nsStep with
        | (Except.error e, db1) => some (some e, db1)
        | (Except.ok namespaceID, db1) =>
          if isExisting then
            match
              (match layer.Parent with
               | none => Except.ok (none : Option Nat)
               | some parent =>
                 if parent.ID = 0 then Except.error (DBError.badRequest parentMsg)
                 else Except.ok (some parent.ID)) with
            | Except.error e => some (some e, db1)
            | Except.ok parentID =>
              match iLayer tx layer parentID namespaceID with
              | Except.error e => some (some e, db1)
              | Except.ok (newID, tx1) =>
                let tx2 := updateDiffFeatureVersions tx1 { layer with ID := newID }
                  existingLayer
                some (none, commitTx db1 tx2)
          else
            if existingLayer.EngineVersion ≥ layer.EngineVersion then
              some (none, db1)
            else
              let tx1 := uLayer tx layer.ID layer.EngineVersion namespaceID
              let tx2 := updateDiffFeatureVersions tx1 layer existingLayer
              some (none, commitTx db1 tx2)

/-- pgSQL.DeleteLayer: the source body is `// TODO` followed by
`return nil` — success for every input, with no state read or written. -/
def deleteLayer (db : DB) (name : String) : Option DBError × DB :=
  (none, db)

/-- Message of the keyvalue validation error. -/
def kvMsg : String := "could not insert a flag which has an empty name or value"

/-- The update-then-insert retry loop of InsertKeyValue.  Iteration `i`
first runs `UPDATE KeyValue SET value WHERE key` against the table state
`updStore i` visible to that statement (done when it affects a row), then
`INSERT INTO KeyValue(key, value)` against the state `insStore i` visible
to the insert: a row with the key present there is a unique-constraint
violation and the loop retries, otherwise the insert succeeds.  The two
oracles let concurrent committed writers appear between the two
statements; the sequential caller passes the same constant table for both.
`none` means the fuel bound was exhausted before the loop returned. -/
def insertKeyValueLoop (updStore insStore : Nat → List (String × String))
    (key value : String) : Nat → Nat → Option (Option DBError × List (String × String))
  | 0, _ => none
  | fuel + 1, i =>
    if ((updStore i).filter (fun p => p.1 = key)).length > 0 then
      some (none, (updStore i).map (fun p => if p.1 = key then (key, value) else p))
    else if (insStore i).any (fun p => p.1 = key) then
      insertKeyValueLoop updStore insStore key value fuel (i + 1)
    else
      some (none, (insStore i) ++ [(key, value)])

/-- pgSQL.InsertKeyValue: reject an empty key or value, then run the
update-then-insert retry loop against the store. -/
def InsertKeyValue (db : DB) (key value : String) (fuel : Nat) :
    Option (Option DBError × DB) :=
  if key = ("") ∨ value = ("") then
    some (some (DBError.badRequest kvMsg), db)
  else
    match insertKeyValueLoop (fun _ => db.keyvalues) (fun _ => db.keyvalues)
        key value fuel 0 with
    | none => none
    | some (e, kv) => some (e, { db with keyvalues := kv })

/-- pgSQL.GetKeyValue: select the value by key; `sql.ErrNoRows` becomes an
empty string with a nil error. -/
def GetKeyValue (db : DB) (key : String) : Except DBError String :=
  match db.keyvalues.find? (fun p => p.1 = key) with
  | none => Except.ok ("")
  | some p => Except.ok p.2

lemma find?_replace_self (kv : List (String × String)) (key value : String)
    (h : kv.any (fun p => p.1 = key) = true) :
    (kv.map (fun p => if p.1 = key then (key, value) else p)).find?
      (fun q => q.1 = key) = some (key, value) := by
  induction kv with
  | nil => simp at h
  | cons p rest ih =>
    by_cases hp : p.1 = key
    · simp [List.find?, hp]
    · simp only [List.any_cons, Bool.or_eq_true, decide_eq_true_eq] at h
      rcases h with h | h
      · exact absurd h hp
      · simpa [List.find?, hp] using ih h

lemma find?_append_absent (kv : List (String × String)) (key value : String)
    (h : kv.any (fun p => p.1 = key) = false) :
    (kv ++ [(key, value)]).find? (fun q => q.1 = key) = some (key, value) := by
  induction kv with
  | nil => simp [List.find?]
  | cons p rest ih =>
    simp only [List.any_cons, Bool.or_eq_false_iff, decide_eq_false_iff_not] at h
    have := ih (by simp [List.any_eq_false] at h ⊢; exact h.2)
    simpa [List.find?, h.1] using this

/-- C8: for every non-empty key and non-empty value, a successful
`put(key, value)` followed by `get(key)` returns exactly that value; and
for every key absent from the store, `get(key)` returns the empty string
with no error. -/
theorem keyvalue_put_get_roundtrip (db : DB) (key value : String)
    (hk : key ≠ ("")) (hv : value ≠ ("")) :
    (∃ db1, InsertKeyValue db key value 1 = some (none, db1) ∧
      GetKeyValue db1 key = Except.ok value) ∧
    (∀ (db2 : DB) (k : String),
      db2.keyvalues.find? (fun p => p.1 = k) = none →
      GetKeyValue db2 k = Except.ok ("")) := by
  constructor
  · by_cases ha : db.keyvalues.any (fun p => p.1 = key) = true
    · -- the key is present: the UPDATE affects a row and rewrites the value
      have hpos : ((db.keyvalues.filter (fun p => p.1 = key)).length > 0) := by
        rcases List.any_eq_true.1 ha with ⟨p, hp, hpk⟩
        exact List.length_pos.2
          (List.ne_nil_of_mem (List.mem_filter.2 ⟨hp, hpk⟩))
      refine ⟨{ db with keyvalues :=
          db.keyvalues.map (fun p => if p.1 = key then (key, value) else p) }, ?_, ?_⟩
      · simp [InsertKeyValue, hk, hv, insertKeyValueLoop, hpos]
      · simp [GetKeyValue, find?_replace_self db.keyvalues key value ha]
    · -- the key is absent: the UPDATE affects no row and the INSERT succeeds
      have ha' : db.keyvalues.any (fun p => p.1 = key) = false :=
        Bool.eq_false_iff.2 ha
      have hnil : db.keyvalues.filter (fun p => p.1 = key) = [] := by
        rw [List.filter_eq_nil_iff]
        intro p hp
        have := List.any_eq_false.1 ha' p hp
        simpa using this
      refine ⟨{ db with keyvalues := db.keyvalues ++ [(key, value)] }, ?_, ?_⟩
      · simp [InsertKeyValue, hk, hv, insertKeyValueLoop, hnil, ha']
      · simp [GetKeyValue, find?_append_absent db.keyvalues key value ha']
  · intro db2 k h
    simp [GetKeyValue, h]

/-- C8 witness. -/
theorem keyvalue_put_get_roundtrip_witness :
    (∃ db1, InsertKeyValue emptyDB ("k") ("v") 1 = some (none, db1) ∧
      GetKeyValue db1 ("k") = Except.ok ("v")) ∧
    (∀ (db2 : DB) (k : String),
      db2.keyvalues.find? (fun p => p.1 = k) = none →
      GetKeyValue db2 k = Except.ok ("")) :=
  keyvalue_put_get_roundtrip emptyDB ("k") ("v") (by decide) (by decide)

/-- C9: under the precondition that a uniqueness violation on the insert
implies a competitor's committed row is visible to the next update, the
update-then-insert loop returns success within two iterations from any
starting iteration (at most one guaranteed-converging retry per
conflict): fuel 2 is never exhausted. -/
theorem insertKeyValueLoop_converges_under_conflict
    (updStore insStore : Nat → List (String × String)) (key value : String)
    (i : Nat)
    (h : ∀ j, (insStore j).any (fun p => p.1 = key) = true →
      ((updStore (j + 1)).filter (fun p => p.1 = key)).length > 0) :
    ∃ kv, insertKeyValueLoop updStore insStore key value 2 i = some (none, kv) := by
  by_cases h1 : ((updStore i).filter (fun p => p.1 = key)).length > 0
  · exact ⟨(updStore i).map (fun p => if p.1 = key then (key, value) else p),
      by simp [insertKeyValueLoop, h1]⟩
  · by_cases h2 : (insStore i).any (fun p => p.1 = key) = true
    · have h3 := h i h2
      exact ⟨(updStore (i + 1)).map (fun p => if p.1 = key then (key, value) else p),
        by simp [insertKeyValueLoop, h1, h2, h3]⟩
    · have h2' : (insStore i).any (fun p => p.1 = key) = false :=
        Bool.eq_false_iff.2 h2
      exact ⟨insStore i ++ [(key, value)],
        by simp [insertKeyValueLoop, h1, h2']⟩

/-- The update-statement view of the C9 witness schedule: the competitor's
row is visible from iteration 1 on. -/
def updSchedC9 : Nat → List (String × String) :=
  fun j => if j = 0 then [] else [(("k"), ("old"))]

/-- The insert-statement view of the C9 witness schedule: the competitor
commits between the update and the insert of iteration 0. -/
def insSchedC9 : Nat → List (String × String) :=
  fun j => if j = 0 then [(("k"), ("old"))] else []

/-- C9 witness. -/
theorem insertKeyValueLoop_converges_witness :
    ∃ kv, insertKeyValueLoop updSchedC9 insSchedC9 ("k") ("v") 2 0 =
      some (none, kv) :=
  insertKeyValueLoop_converges_under_conflict updSchedC9 insSchedC9 ("k") ("v") 0
    (by
      intro j hj
      cases j with
      | zero => simp [updSchedC9]
      | succ n => simp [insSchedC9] at hj)

/-- C10: `get` never raises a validation error for any key string — it
always returns a value — and on any absent key, the empty string included,
it returns the empty string with no error; `put`, in contrast, rejects an
empty key with a validation error. -/
theorem getKeyValue_no_validation_error (db : DB) (key : String)
    (habs : db.keyvalues.find? (fun p => p.1 = key) = none) :
    GetKeyValue db key = Except.ok ("") ∧
    (∀ (db2 : DB) (k : String), ∃ v, GetKeyValue db2 k = Except.ok v) ∧
    (∀ (db2 : DB) (v : String),
      InsertKeyValue db2 ("") v 1 = some (some (DBError.badRequest kvMsg), db2)) := by
  refine ⟨by simp [GetKeyValue, habs], ?_, ?_⟩
  · intro db2 k
    cases h : db2.keyvalues.find? (fun p => p.1 = k) with
    | none => exact ⟨(""), by simp [GetKeyValue, h]⟩
    | some p => exact ⟨p.2, by simp [GetKeyValue, h]⟩
  · intro db2 v
    simp [InsertKeyValue]

/-- C10 witness. -/
theorem getKeyValue_no_validation_error_witness :
    GetKeyValue emptyDB ("") = Except.ok ("") ∧
    (∀ (db2 : DB) (k : String), ∃ v, GetKeyValue db2 k = Except.ok v) ∧
    (∀ (db2 : DB) (v : String),
      InsertKeyValue db2 ("") v 1 = some (some (DBError.badRequest kvMsg), db2)) :=
  getKeyValue_no_validation_error emptyDB ("") (by decide)

lemma soiNamespace_cache (db : DB) (name : String) :
    (soiNamespace db name).2.cache = db.cache := by
  cases h : db.namespaces.find? (fun p => p.2 = name) <;> simp [soiNamespace, h]

/-- C7: for every non-empty namespace name, with the identity cache
configured, resolving the same name twice sequentially yields equal
identities, and the second call — whose name is then present in the
cache — returns the cached identity leaving the whole handle state
untouched (in particular performing no durable-store operation). -/
theorem insertNamespace_cached_idempotent (db : DB) (ns : Namespace)
    (c : List (String × Nat)) (hname : ns.Name ≠ (""))
    (hcache : db.cache = some c) :
    ∃ idv db1, insertNamespace db ns = (Except.ok idv, db1) ∧
      insertNamespace db1 ns = (Except.ok idv, db1) := by
  cases hl : alLookup c (cacheKey ns.Name) with
  | some idv =>
    exact ⟨idv, db, by simp [insertNamespace, hname, hcache, hl],
      by simp [insertNamespace, hname, hcache, hl]⟩
  | none =>
    cases hsoi : soiNamespace db ns.Name with
    | mk idv db1 =>
      have hc1 : db1.cache = some c := by
        have h2 := soiNamespace_cache db ns.Name
        rw [hsoi] at h2
        rw [h2, hcache]
      refine ⟨idv, { db1 with cache := some (alInsert c (cacheKey ns.Name) idv) },
        ?_, ?_⟩
      · simp [insertNamespace, hname, hcache, hl, insertNamespaceMiss, hsoi, hc1]
      · simp [insertNamespace, hname, alLookup_alInsert]

/-- The C7 witness handle: an empty store with the cache configured. -/
def dbC7 : DB := { emptyDB with cache := some [] }

/-- C7 witness. -/
theorem insertNamespace_cached_idempotent_witness :
    ∃ idv db1, insertNamespace dbC7 ({ Name := ("debian:7") } : Namespace) =
        (Except.ok idv, db1) ∧
      insertNamespace db1 ({ Name := ("debian:7") } : Namespace) =
        (Except.ok idv, db1) :=
  insertNamespace_cached_idempotent dbC7 ({ Name := ("debian:7") } : Namespace) []
    (by decide) rfl

lemma keysOf_cons (p : Nat × FeatureVersion) (rest : List (Nat × FeatureVersion)) :
    keysOf (p :: rest) = insert p.1 (keysOf rest) := by
  simp [keysOf]

lemma keysOf_alInsert (m : List (Nat × FeatureVersion)) (i : Nat)
    (fv : FeatureVersion) :
    keysOf (alInsert m i fv) = insert i (keysOf m) := by
  by_cases h : m.any (fun p => p.1 = i)
  · have hmem : i ∈ keysOf m := by
      rcases List.any_eq_true.1 h with ⟨p, hp, hpk⟩
      simp only [decide_eq_true_eq] at hpk
      exact List.mem_toFinset.2 (List.mem_map.2 ⟨p, hp, hpk⟩)
    rw [Finset.insert_eq_self.2 hmem]
    simp only [alInsert, if_pos h, keysOf, List.map_map]
    congr 1
    apply List.map_congr_left
    intro p hp
    by_cases hpk : p.1 = i <;> simp [hpk]
  · simp only [alInsert, if_neg h, keysOf, List.map_append]
    rw [List.toFinset_append]
    simp [Finset.insert_eq, Finset.union_comm]

lemma keysOf_alDelete (m : List (Nat × FeatureVersion)) (i : Nat) :
    keysOf (alDelete m i) = (keysOf m).erase i := by
  induction m with
  | nil => simp [alDelete, keysOf]
  | cons p rest ih =>
    by_cases hp : p.1 = i
    · have : alDelete (p :: rest) i = alDelete rest i := by
        simp [alDelete, List.filter_cons, hp]
      rw [this, ih, keysOf_cons, hp, Finset.erase_insert_eq_erase]
    · have : alDelete (p :: rest) i = p :: alDelete rest i := by
        simp [alDelete, List.filter_cons, hp]
      rw [this, keysOf_cons, ih, keysOf_cons, Finset.erase_insert_of_ne hp]

/-- The (featureversion_id, modification) diff rows of the layer with id
`i`, in stored order — the per-layer block the feature-version query joins
against one layer-tree row. -/
def layerDiffRows (db : DB) (i : Nat) : List (Nat × String) :=
  (db.diffs.filter (fun d => d.layerId = i)).map
    (fun d => (d.featureVersionId, d.modification))

/-- The diff rows of a list of layer rows, concatenated in list order. -/
def diffRowsOf (db : DB) (rows : List LayerRow) : List (Nat × String) :=
  (rows.map (fun r => layerDiffRows db r.id)).flatten

/-- The ancestor path of a layer in the store, target first and root
last: each listed row is the unique Layer row carrying its id, each row's
parent id resolves to the next listed row, and the final row has no
parent.  A finite such path is exactly an acyclic parent chain: parent
lookup is deterministic under the uniqueness condition, so a chain that
reaches a root can never revisit a layer. -/
inductive AncestorChain (db : DB) : List LayerRow → Prop
  | root (r : LayerRow)
      (hfind : db.layers.filter (fun l => l.id = r.id) = [r])
      (hr : r.parentId = none) :
      AncestorChain db [r]
  | step (r p : LayerRow) (rest : List LayerRow)
      (hfind : db.layers.filter (fun l => l.id = r.id) = [r])
      (hp : r.parentId = some p.id)
      (hchain : AncestorChain db (p :: rest)) :
      AncestorChain db (r :: p :: rest)

lemma AncestorChain.head_find {db : DB} {p : LayerRow} {rest : List LayerRow}
    (h : AncestorChain db (p :: rest)) :
    db.layers.filter (fun l => l.id = p.id) = [p] := by
  cases h with
  | root _ hfind _ => exact hfind
  | step _ _ _ hfind _ _ => exact hfind

lemma layerTreeAux_nil (db : DB) : ∀ fuel, layerTreeAux db fuel [] = some [] := by
  intro fuel
  cases fuel <;> simp [layerTreeAux]

lemma layerTreeAux_chain {db : DB} {rs : List LayerRow}
    (hchain : AncestorChain db rs) :
    ∀ (r : LayerRow) (rest : List LayerRow), rs = r :: rest →
    ∀ (fuel d : Nat) (path : List Nat) (cyc : Bool), rs.length ≤ fuel →
    ∃ treeRows,
      layerTreeAux db fuel [⟨r.id, r.parentId, d, path, cyc⟩] = some treeRows ∧
      treeRows.map (fun tr => tr.id) = rs.map (fun q => q.id) := by
  induction hchain with
  | root q hfind hq =>
    intro r rest heq fuel d path cyc hfuel
    injection heq with h1 h2
    subst h1
    subst h2
    cases fuel with
    | zero => exact absurd hfuel (by simp)
    | succ f =>
      have hstep : cteStep db [⟨q.id, q.parentId, d, path, cyc⟩] = [] := by
        simp [cteStep, cteExpand, hq]
      refine ⟨[⟨q.id, q.parentId, d, path, cyc⟩], ?_, by simp⟩
      simp [layerTreeAux, hstep, layerTreeAux_nil]
  | step q p rest hfind hp hch ih =>
    intro r rest' heq fuel d path cyc hfuel
    injection heq with h1 h2
    subst h1
    subst h2
    cases fuel with
    | zero => exact absurd hfuel (by simp)
    | succ f =>
      have hf : (p :: rest).length ≤ f := by
        simp only [List.length_cons] at hfuel ⊢
        omega
      obtain ⟨treeRows', haux', hids'⟩ :=
        ih p rest rfl f (d + 1) (path ++ [p.id]) (path.contains p.id) hf
      have hstep : cteStep db [⟨q.id, q.parentId, d, path, cyc⟩] =
          [⟨p.id, p.parentId, d + 1, path ++ [p.id], path.contains p.id⟩] := by
        simp [cteStep, cteExpand, hp, hch.head_find]
      refine ⟨⟨q.id, q.parentId, d, path, cyc⟩ :: treeRows', ?_, by simp [hids']⟩
      have hne : ([(⟨q.id, q.parentId, d, path, cyc⟩ : TreeRow)] : List TreeRow) ≠ [] := by
        simp
      simp only [layerTreeAux, if_neg hne, hstep, haux']
      rfl

lemma map_layerDiffRows_of_ids_eq (db : DB) (ts : List TreeRow)
    (ls : List LayerRow)
    (h : ts.map (fun tr => tr.id) = ls.map (fun r => r.id)) :
    ts.map (fun tr => layerDiffRows db tr.id) =
      ls.map (fun r => layerDiffRows db r.id) := by
  have e1 : ts.map (fun tr => layerDiffRows db tr.id) =
      (ts.map (fun tr => tr.id)).map (layerDiffRows db) := by
    rw [List.map_map]
    rfl
  have e2 : ls.map (fun r => layerDiffRows db r.id) =
      (ls.map (fun r => r.id)).map (layerDiffRows db) := by
    rw [List.map_map]
    rfl
  rw [e1, e2, h]

/-- For every store and every layer whose parent chain is an acyclic
ancestor path `r0 :: rs` (target first, root last), the resolution
completes — fuel equal to the chain length suffices — and its result is
the transitive-closure fold of the per-layer diff blocks taken in
root-to-target order, starting from the empty working map. -/
lemma getLayerFeatureVersions_chain (db : DB) (r0 : LayerRow)
    (rs : List LayerRow) (hchain : AncestorChain db (r0 :: rs)) :
    getLayerFeatureVersions db r0.id (r0 :: rs).length =
      some (processDiffRows (diffRowsOf db ((r0 :: rs).reverse)) []) := by
  obtain ⟨treeRows, haux, hids⟩ :=
    layerTreeAux_chain hchain r0 rs rfl ((r0 :: rs).length) 1 [r0.id] false le_rfl
  have hrows : layerTreeRows db r0.id (r0 :: rs).length = some treeRows := by
    unfold layerTreeRows
    rw [hchain.head_find]
    exact haux
  have hres : getLayerFeatureVersions db r0.id (r0 :: rs).length =
      some (processDiffRows
        ((treeRows.reverse.map (fun tr => layerDiffRows db tr.id)).flatten) []) := by
    simp only [getLayerFeatureVersions, hrows]
    rfl
  have hrev : treeRows.reverse.map (fun tr => tr.id) =
      ((r0 :: rs).reverse).map (fun r => r.id) := by
    rw [List.map_reverse, List.map_reverse, hids]
  rw [hres, map_layerDiffRows_of_ids_eq db treeRows.reverse ((r0 :: rs).reverse) hrev]
  rfl

/-- The C3 store: parent layer P (id 1, a root) whose diff adds
feature-versions 11 and 12, and child layer C (id 2, parent P) whose own
diff deletes 11 and adds 13. -/
def dbC3 : DB :=
  { layers := [⟨1, ("P"), 1, none, none⟩, ⟨2, ("C"), 1, some 1, none⟩],
    diffs := [⟨1, 11, ("add")⟩, ⟨1, 12, ("add")⟩, ⟨2, 11, ("del")⟩, ⟨2, 13, ("add")⟩],
    nextId := 3 }

/-- C3: for every store and every layer whose parent chain is acyclic
(an ancestor path exists from the target to a root), the resolution
completes and applies the ancestor diff blocks in root-to-target order,
folded through the closure map from the empty working set; an `add`
inserts the feature-version keyed by its identity (so a later `add` of
the same identity leaves the key set unchanged) and a `del` removes
exactly that key; and in particular, on the C3 store the parent P
resolves to exactly the identity set 11, 12, while the child C, whose own
diff deletes 11 and adds 13, resolves to exactly 12, 13. -/
theorem getLayerFeatureVersions_closure_correct :
    (∀ (db : DB) (r0 : LayerRow) (rs : List LayerRow),
      AncestorChain db (r0 :: rs) →
      getLayerFeatureVersions db r0.id (r0 :: rs).length =
        some (processDiffRows (diffRowsOf db ((r0 :: rs).reverse)) [])) ∧
    (getLayerFeatureVersions dbC3 1 4 =
        some (Except.ok [(11, ⟨11⟩), (12, ⟨12⟩)]) ∧
      keysOf [(11, ⟨11⟩), (12, ⟨12⟩)] = ({11, 12} : Finset Nat)) ∧
    (getLayerFeatureVersions dbC3 2 4 =
        some (Except.ok [(12, ⟨12⟩), (13, ⟨13⟩)]) ∧
      keysOf [(12, ⟨12⟩), (13, ⟨13⟩)] = ({12, 13} : Finset Nat)) ∧
    (∀ (m : List (Nat × FeatureVersion)) (i : Nat) (fv : FeatureVersion),
      keysOf (alInsert m i fv) = insert i (keysOf m)) ∧
    (∀ (m : List (Nat × FeatureVersion)) (i : Nat),
      keysOf (alDelete m i) = (keysOf m).erase i) :=
  ⟨getLayerFeatureVersions_chain, ⟨rfl, by decide⟩, ⟨rfl, by decide⟩,
    keysOf_alInsert, keysOf_alDelete⟩

/-- C3 witness: the universal conjunct applied to the concrete two-layer
chain of the C3 store (child C over root P, fuel 2). -/
theorem getLayerFeatureVersions_closure_witness :
    getLayerFeatureVersions dbC3 2 2 =
      some (processDiffRows (diffRowsOf dbC3
        [⟨1, ("P"), 1, none, none⟩, ⟨2, ("C"), 1, some 1, none⟩]) []) :=
  getLayerFeatureVersions_closure_correct.1 dbC3 ⟨2, ("C"), 1, some 1, none⟩
    [⟨1, ("P"), 1, none, none⟩]
    (AncestorChain.step _ _ _ (by rfl) rfl
      (AncestorChain.root _ (by rfl) rfl))

/-- The C4 store: layer A (id 1) has parent B (id 2), and B has parent A —
a cyclic parent chain. -/
def dbC4 : DB :=
  { layers := [⟨1, ("A"), 1, some 2, none⟩, ⟨2, ("B"), 1, some 1, none⟩],
    nextId := 3 }

lemma cteExpand_dbC4 (r : TreeRow)
    (h : r.parentId = some 1 ∨ r.parentId = some 2) :
    ∃ r', cteExpand dbC4 r = [r'] ∧
      (r'.parentId = some 1 ∨ r'.parentId = some 2) := by
  rcases h with h | h
  · exact ⟨⟨1, some 2, r.depth + 1, r.path ++ [1], r.path.contains 1⟩,
      by simp [cteExpand, dbC4, h], Or.inr rfl⟩
  · exact ⟨⟨2, some 1, r.depth + 1, r.path ++ [2], r.path.contains 2⟩,
      by simp [cteExpand, dbC4, h], Or.inl rfl⟩

lemma cteStep_dbC4 (frontier : List TreeRow) (hne : frontier ≠ [])
    (hinv : ∀ r ∈ frontier, r.parentId = some 1 ∨ r.parentId = some 2) :
    cteStep dbC4 frontier ≠ [] ∧
      ∀ r ∈ cteStep dbC4 frontier, r.parentId = some 1 ∨ r.parentId = some 2 := by
  constructor
  · cases frontier with
    | nil => exact absurd rfl hne
    | cons r rest =>
      obtain ⟨r', hr', _⟩ := cteExpand_dbC4 r (hinv r (List.mem_cons_self _ _))
      simp [cteStep, hr']
  · intro r hr
    simp only [cteStep, List.mem_flatten, List.mem_map] at hr
    obtain ⟨l, ⟨q, hq, rfl⟩, hrl⟩ := hr
    obtain ⟨r', hr', hinv'⟩ := cteExpand_dbC4 q (hinv q hq)
    rw [hr'] at hrl
    simp only [List.mem_singleton] at hrl
    subst hrl
    exact hinv'

lemma layerTreeAux_dbC4_none :
    ∀ (fuel : Nat) (frontier : List TreeRow), frontier ≠ [] →
      (∀ r ∈ frontier, r.parentId = some 1 ∨ r.parentId = some 2) →
      layerTreeAux dbC4 fuel frontier = none := by
  intro fuel
  induction fuel with
  | zero =>
    intro frontier hne _
    simp [layerTreeAux, hne]
  | succ n ih =>
    intro frontier hne hinv
    obtain ⟨hne', hinv'⟩ := cteStep_dbC4 frontier hne hinv
    simp [layerTreeAux, hne, ih _ hne' hinv']

/-- C4: on the cyclic two-layer store the recursive ancestor query does
not finish within any fuel bound, so the resolution never completes — it
neither loops back with a wrong set nor returns the inconsistency error
the claim requires.  The query computes a `cycle` column but has no
`NOT cycle` stop condition, and the scan loop never examines the flag. -/
theorem getLayerFeatureVersions_cycle_never_completes :
    ∀ fuel : Nat, getLayerFeatureVersions dbC4 1 fuel = none := by
  intro fuel
  have hinit :
      ((dbC4.layers.filter (fun l => l.id = 1)).map
        (fun l => (⟨l.id, l.parentId, 1, [l.id], false⟩ : TreeRow))) =
      [⟨1, some 2, 1, [1], false⟩] := rfl
  have h := layerTreeAux_dbC4_none fuel [⟨1, some 2, 1, [1], false⟩]
    (by decide) (by decide)
  simp [getLayerFeatureVersions, layerTreeRows, hinit, h]

/-- C6: the transitive-closure scan hitting a stored diff row whose
modification kind is neither `add` nor `del` aborts at that row with the
inconsistent-database error, whatever rows precede (recognized kinds) or
follow it and whatever the working map holds: the unknown kind is not
coerced and no partial result is returned. -/
theorem processDiffRows_unknown_modification_inconsistent
    (pre post : List (Nat × String)) (idv : Nat) (bad : String)
    (m : List (Nat × FeatureVersion))
    (hpre : ∀ r ∈ pre, r.2 = ("add") ∨ r.2 = ("del"))
    (h1 : bad ≠ ("add")) (h2 : bad ≠ ("del")) :
    processDiffRows (pre ++ (idv, bad) :: post) m =
      Except.error DBError.inconsistent := by
  revert hpre
  induction pre generalizing m with
  | nil =>
    intro _
    simp [processDiffRows, h1, h2]
  | cons r rest ih =>
    intro hpre
    have hrest : ∀ q ∈ rest, q.2 = ("add") ∨ q.2 = ("del") :=
      fun q hq => hpre q (List.mem_cons_of_mem _ hq)
    cases r with
    | mk a s =>
      rcases hpre ⟨a, s⟩ (List.mem_cons_self _ _) with hr | hr
      · have hr' : s = ("add") := hr
        subst hr'
        simpa [processDiffRows] using ih (alInsert m a { ID := a }) hrest
      · have hr' : s = ("del") := hr
        subst hr'
        simpa [processDiffRows] using ih (alDelete m a) hrest

/-- C6 witness. -/
theorem processDiffRows_unknown_modification_witness :
    processDiffRows [(1, ("add")), (2, ("mod")), (3, ("add"))] [] =
      Except.error DBError.inconsistent :=
  processDiffRows_unknown_modification_inconsistent
    [(1, ("add"))] [(3, ("add"))] 2 ("mod") [] (by decide) (by decide) (by decide)

/-- The C1 store: one layer named "a" stored with engine version 2. -/
def dbC1 : DB := { layers := [⟨7, ("a"), 2, none, none⟩], nextId := 8 }

/-- The C1 input: re-ingesting layer "a" with the lower engine version 1. -/
def layerC1 : Layer := { Name := ("a"), EngineVersion := 1 }

/-- C1: re-ingesting a stored layer under the same name with a lower
engine version is not the no-op success the claim requires.  Because
`isExisting` selects the source's insert branch rather than its update
branch (the branches are swapped relative to the function's own doc
comment), the engine-version guard is never consulted for an existing
layer and the call attempts to insert a duplicate Layer row, failing with
a unique-constraint violation. -/
theorem insertLayer_existing_lower_engineversion_not_noop :
    insertLayer dbC1 layerC1 4 = some (some DBError.uniqueViolation, dbC1) := by
  decide

/-- The C2 store: one layer named "a" stored with engine version 2 and an
empty but configured namespace cache. -/
def dbC2 : DB :=
  { layers := [⟨7, ("a"), 2, none, none⟩], nextId := 8, cache := some [] }

/-- The C2 failing input: re-ingesting "a" with a new namespace and a
parent reference whose identity was never resolved (ID 0). -/
def layerC2 : Layer :=
  { Name := ("a"), EngineVersion := 3,
    Namespace := some { Name := ("debian:7") },
    Parent := some { ID := 0, Name := ("a-parent") } }

/-- The handle state after the C2 failing call: the namespace row, id
sequence, cache and query counter have all moved although the call
returned an error. -/
def dbC2After : DB :=
  { layers := [⟨7, ("a"), 2, none, none⟩],
    namespaces := [(8, ("debian:7"))], nextId := 9,
    cache := some [(("namespace:debian:7"), 8)], queries := 1 }

/-- The C2 fresh input: a brand-new layer with a feature diff to persist. -/
def layerC2b : Layer :=
  { Name := ("b"), EngineVersion := 1, Features := [⟨42⟩] }

/-- C2: layer ingestion is not atomic and does not persist the diff set.
First, a call that fails (unresolved parent) still leaves durable state
changed, because insertNamespace runs on the pgSQL handle outside the
transaction: the namespace row survives the error.  Second, a call that
returns success on a fresh layer commits without persisting any diff
entry — updateDiffFeatureVersions is an empty TODO stub and, the
source's insert/update branches being swapped, the fresh layer's row is
not even created: the store is untouched. -/
theorem insertLayer_not_atomic_no_diffs :
    (insertLayer dbC2 layerC2 4 =
        some (some (DBError.badRequest parentMsg), dbC2After) ∧
      dbC2After.namespaces ≠ dbC2.namespaces) ∧
    (insertLayer emptyDB layerC2b 4 = some (none, emptyDB) ∧
      emptyDB.diffs = []) := by
  refine ⟨⟨by decide, by decide⟩, by decide, rfl⟩

/-- The C5 store: layer P (id 1) is the parent of layer C (id 2), so P has
a dependent child. -/
def dbC5 : DB :=
  { layers := [⟨1, ("P"), 1, none, none⟩, ⟨2, ("C"), 1, some 1, none⟩],
    nextId := 3 }

/-- C5: deleting a layer that has a dependent child layer returns success
without touching any state instead of failing loudly (DeleteLayer is a
TODO stub that returns nil for every input; it also removes nothing for a
childless layer). -/
theorem deleteLayer_silently_noops_with_children :
    dbC5.layers.any (fun l => l.parentId = some 1) = true ∧
    deleteLayer dbC5 ("P") = (none, dbC5) := by
  exact ⟨rfl, rfl⟩

end Clair
